import Mathlib

/-!
Verification development for `iso-flow-view` (`src/app.ts`).

The file shallowly embeds the plan data model, the wire router
(`pathBetween`, `bezierMidpoint`) and the layout engine (`render`) of
`src/app.ts`.  Coordinates are modelled as exact rationals (`ℚ`); the
result of JavaScript arithmetic whose operands may be `undefined` is
modelled as `Option ℚ`, where `none` stands for `NaN`.  DOM effects
(element creation, wire drawing, label placement) are modelled as an
explicit state `DomState` listing, in creation order, the node elements,
the `d` attributes of the SVG paths, and the branch labels, together
with the `nodePositions` key/value mapping of the script.  The measured
size that `getBoundingClientRect` reports for a freshly created node is
an external input and is passed as a function parameter `measure`.
A step of the script that throws a `TypeError` (e.g. a branch whose
first step is missing or not an action) is modelled by `Option`:
`none` is an abrupt stop.
-/

namespace IsoFlow

/-- Opaque payload data (`payload` fields): a string-keyed tree the
layout engine never inspects. -/
inductive Json where
  | str (s : String)
  | obj (fields : List (String × Json))

/-- Fields of the `action` variant of `Step` (`src/app.ts` line 5). -/
structure ActionData where
  id : String
  provider : Option String
  label : String
  tool_name : Option String
  payload : Option Json

/-- One entry of a `sequential` step (`src/app.ts` lines 7-15). -/
structure SeqEntry where
  label : Option String
  call_type : Option String
  tool_name : String
  payload : Option Json
  store_variables : Option (List (String × String))

/-- A plan step (`src/app.ts` lines 4-16).  The structural record
`Branch = \x7b label; steps \x7d` is embedded as the pair
`String × List Step` (label first). -/
inductive Step where
  | action (a : ActionData)
  | split (id : String) (label : String) (branches : List (String × List Step))
  | sequential (entries : List SeqEntry)

/-- A plan (`src/app.ts` line 18). -/
structure Plan where
  steps : List Step

/-- `NodeBBox` of `src/app.ts` line 56 (the `el` handle is dropped;
the element itself is tracked in `DomState.nodes`). -/
structure NodeBBox where
  x : ℚ
  y : ℚ
  w : ℚ
  h : ℚ
deriving DecidableEq

/-- The CSS kind of a node (`decision` or `action`). -/
inductive NodeType where
  | decision
  | action
deriving DecidableEq

/-- The `opts` argument of `createNode` (`src/app.ts` line 59). -/
structure NodeOpts where
  title : String
  subtitle : Option String
  type : NodeType
  x : ℚ
  y : ℚ
deriving DecidableEq

/-- A node element appended to the canvas by `createNode`. -/
structure RenderedNode where
  id : String
  opts : NodeOpts
deriving DecidableEq

/-- A branch label appended to the canvas by `labelAt`; its position is
written from a possibly-NaN midpoint, so the coordinates are `Option ℚ`
(`none` = `NaN`). -/
structure RenderedLabel where
  x : Option ℚ
  y : Option ℚ
  text : String
deriving DecidableEq

/-- The mutable document state the script manipulates: node elements on
the canvas, path elements in the SVG (their `d` strings), branch
labels, and the global `nodePositions` mapping (line 57), kept in
object-key insertion order. -/
structure DomState where
  nodes : List RenderedNode
  wires : List String
  labels : List RenderedLabel
  nodePositions : List (String × NodeBBox)
deriving DecidableEq

/-- The externally measured size (`getBoundingClientRect`) of a freshly
created node, as a function of its identifier and options. -/
abbrev MeasureFn := String → NodeOpts → ℚ × ℚ

/-! ### Number-to-string rendering (JS template literals) -/

/-- Decimal digits of `n`, most significant first (fuel-bounded; any
`fuel > n` is enough).  Mirrors what a JS template literal prints for a
whole number. -/
def natStrAux : ℕ → ℕ → List Char
  | 0, _ => []
  | fuel + 1, n =>
      if n < 10 then [Nat.digitChar n]
      else natStrAux fuel (n / 10) ++ [Nat.digitChar (n % 10)]

/-- Decimal rendering of a natural number. -/
def natStr (n : ℕ) : String := String.mk (natStrAux (n + 1) n)

/-- Decimal digits of the fractional part `num/den` (`num < den`),
fuel-bounded; exact whenever the expansion terminates within the
fuel, which covers every value this development evaluates. -/
def fracDigits : ℕ → ℕ → ℕ → List Char
  | 0, _, _ => []
  | _ + 1, 0, _ => []
  | fuel + 1, num, den =>
      Nat.digitChar (num * 10 / den) :: fracDigits fuel (num * 10 % den) den

/-- JS template-literal rendering of a number (modelled for numbers
with a terminating decimal expansion, which is every number the claims
evaluate). -/
def ratStr (q : ℚ) : String :=
  let sign := if q < 0 then "-" else ""
  let n := q.num.natAbs
  let d := q.den
  if n % d = 0 then sign ++ natStr (n / d)
  else sign ++ natStr (n / d) ++ "." ++ String.mk (fracDigits 40 (n % d) d)

/-! ### Wire router (`pathBetween`, lines 88-96) -/

/-- The eight numbers of the cubic the router emits, in the order they
appear in the SVG path string `M x1 y1 C cx1 cy1, cx2 cy2, x2 y2`. -/
structure CurveNums where
  x1 : ℚ
  y1 : ℚ
  cx1 : ℚ
  cy1 : ℚ
  cx2 : ℚ
  cy2 : ℚ
  x2 : ℚ
  y2 : ℚ
deriving DecidableEq

/-- The numbers computed by `pathBetween` (lines 89-94): right-middle
anchor of `from`, left-middle anchor of `to`, control points offset
horizontally by `dx`; the control-point `y`s are the anchor `y`s. -/
def pathBetweenNums (f : NodeBBox) (t : NodeBBox) (dx : ℚ) : CurveNums :=
  let x1 := f.x + f.w
  let y1 := f.y + f.h / 2
  let x2 := t.x
  let y2 := t.y + t.h / 2
  { x1 := x1, y1 := y1, cx1 := x1 + dx, cy1 := y1,
    cx2 := x2 - dx, cy2 := y2, x2 := x2, y2 := y2 }

/-- The path string of line 95. -/
def curveStr (c : CurveNums) : String :=
  "M " ++ ratStr c.x1 ++ " " ++ ratStr c.y1 ++ " C " ++ ratStr c.cx1 ++ " " ++
    ratStr c.cy1 ++ ", " ++ ratStr c.cx2 ++ " " ++ ratStr c.cy2 ++ ", " ++
    ratStr c.x2 ++ " " ++ ratStr c.y2

/-- `pathBetween` of `src/app.ts` lines 88-96 (default `dx = 60`). -/
def pathBetween (f t : NodeBBox) (dx : ℚ := 60) : String :=
  curveStr (pathBetweenNums f t dx)

/-! ### Curve descriptor parsing (`bezierMidpoint`, lines 118-129) -/

/-- Numeric value of a list of decimal digit characters. -/
def digitsVal (ds : List Char) : ℕ :=
  ds.foldl (fun a c => 10 * a + (c.toNat - 48)) 0

/-- A match of the regex pattern `-?\d+(\.\d+)?` anchored at the head
of the input: the JS numeric value of the matched text and the
remaining input; `none` when the pattern does not match here. -/
def matchNumAt (cs : List Char) : Option (ℚ × List Char) :=
  let p : Bool × List Char :=
    match cs with
    | '-' :: rest => (true, rest)
    | _ => (false, cs)
  let ds := p.2.takeWhile Char.isDigit
  let cs2 := p.2.dropWhile Char.isDigit
  if ds.isEmpty then none
  else
    let signed : ℚ → ℚ := fun v => if p.1 then -v else v
    let ip : ℚ := (digitsVal ds : ℕ)
    match cs2 with
    | '.' :: cs3 =>
        let fs := cs3.takeWhile Char.isDigit
        let cs4 := cs3.dropWhile Char.isDigit
        if fs.isEmpty then some (signed ip, cs2)
        else some (signed (ip + (digitsVal fs : ℚ) / (10 : ℚ) ^ fs.length), cs4)
    | _ => some (signed ip, cs2)

/-- Global scan of the regex: at each position try to match, emit the
value and continue after the match, otherwise advance one character.
Every iteration consumes at least one character, so fuel equal to the
input length is enough. -/
def scanNumsAux : ℕ → List Char → List ℚ
  | 0, _ => []
  | _ + 1, [] => []
  | fuel + 1, c :: rest =>
      match matchNumAt (c :: rest) with
      | some (v, rest2) => v :: scanNumsAux fuel rest2
      | none => scanNumsAux fuel rest

/-- Line 120: match the number pattern globally over the descriptor
and convert each match with `Number` (no match at all gives `[]`). -/
def jsMatchNums (s : String) : List ℚ := scanNumsAux s.length s.data

/-- JS addition where either operand may be `undefined`/`NaN`
(`none`). -/
def jadd : Option ℚ → Option ℚ → Option ℚ
  | some a, some b => some (a + b)
  | _, _ => none

/-- JS halving of a possibly-`NaN` number. -/
def jhalf : Option ℚ → Option ℚ
  | some a => some (a / 2)
  | none => none

/-- `bezierMidpoint` of `src/app.ts` lines 118-129: parse the first
eight numbers out of the descriptor (missing ones are `undefined`,
i.e. `none`) and run De Casteljau at `t = 0.5`. -/
def bezierMidpoint (d : String) : Option ℚ × Option ℚ :=
  let nums := jsMatchNums d
  let x1 := nums[0]?
  let y1 := nums[1]?
  let cx1 := nums[2]?
  let cy1 := nums[3]?
  let cx2 := nums[4]?
  let cy2 := nums[5]?
  let x2 := nums[6]?
  let y2 := nums[7]?
  let q0x := jhalf (jadd x1 cx1)
  let q0y := jhalf (jadd y1 cy1)
  let q1x := jhalf (jadd cx1 cx2)
  let q1y := jhalf (jadd cy1 cy2)
  let q2x := jhalf (jadd cx2 x2)
  let q2y := jhalf (jadd cy2 y2)
  let r0x := jhalf (jadd q0x q1x)
  let r0y := jhalf (jadd q0y q1y)
  let r1x := jhalf (jadd q1x q2x)
  let r1y := jhalf (jadd q1y q2y)
  (jhalf (jadd r0x r1x), jhalf (jadd r0y r1y))

/-! ### DOM primitives (`createNode`, `addWire`, `labelAt`) -/

/-- JS object-key assignment `m[k] = v`: replace in place when the key
exists, append otherwise. -/
def mapSet : List (String × NodeBBox) → String → NodeBBox → List (String × NodeBBox)
  | [], k, v => [(k, v)]
  | (k1, v1) :: rest, k, v =>
      if k1 = k then (k, v) :: rest else (k1, v1) :: mapSet rest k v

/-- JS object-key lookup `m[k]` (`none` = `undefined`). -/
def mapGet (m : List (String × NodeBBox)) (k : String) : Option NodeBBox :=
  match m with
  | [] => none
  | (k1, v1) :: rest => if k1 = k then some v1 else mapGet rest k

/-- `createNode` of lines 59-86: append the element to the canvas and
record its box (given position, measured size) in `nodePositions`. -/
def createNode (measure : MeasureFn) (st : DomState) (id : String) (opts : NodeOpts) :
    DomState :=
  let wh := measure id opts
  { st with
      nodes := st.nodes ++ [{ id := id, opts := opts }],
      nodePositions :=
        mapSet st.nodePositions id { x := opts.x, y := opts.y, w := wh.1, h := wh.2 } }

/-- `addWire` of lines 98-107: append a path with the given `d`. -/
def addWire (st : DomState) (d : String) : DomState :=
  { st with wires := st.wires ++ [d] }

/-- `labelAt` of lines 109-116: append a branch label at `mid`. -/
def labelAt (st : DomState) (mid : Option ℚ × Option ℚ) (text : String) : DomState :=
  { st with labels := st.labels ++ [{ x := mid.1, y := mid.2, text := text }] }

/-! ### Layout engine (`render`, lines 131-200) -/

/-- JS `o || d` for an optional string (`undefined` and `""` are
falsy). -/
def jsOrOpt (o : Option String) (d : String) : String :=
  match o with
  | some s => if s = "" then d else s
  | none => d

/-- JS `s || d` for a string (`""` is falsy). -/
def jsOrStr (s d : String) : String := if s = "" then d else s

/-- `originX` of line 136. -/
def originX : ℚ := 140

/-- `originY` of line 136. -/
def originY : ℚ := 160

/-- `columnWidth` of line 139. -/
def columnWidth : ℚ := 320

/-- The node identifier synthesized for entry `idx` of a sequential
block: `seq_<idx>_<tool_name>` (line 179). -/
def seqId (idx : ℕ) (tool : String) : String :=
  "seq_" ++ natStr idx ++ "_" ++ tool

/-- Body of the `branches.forEach((br, i) => ...)` of lines 153-170.
`ib` is the pair (index, branch).  A branch whose first step is missing
or is not an action makes the script throw a `TypeError` (reading
`action` of `undefined`, or `label` of `undefined`): modelled as
`none`. -/
def renderBranch (measure : MeasureFn) (splitId : String) (baseX cursorY : ℚ)
    (st : DomState) (ib : ℕ × (String × List Step)) : Option DomState :=
  match ib.2.2.head? with
  | some (Step.action a) =>
      let i := ib.1
      let id := jsOrStr a.id ("b" ++ natStr i)
      let y := cursorY + (i : ℚ) * 140
      let st1 := createNode measure st id
        { title := a.label, subtitle := some ((jsOrOpt a.provider "").toUpper),
          type := NodeType.action, x := baseX + (i : ℚ) * 0, y := y }
      match mapGet st1.nodePositions splitId with
      | none => none
      | some fromBox =>
          match mapGet st1.nodePositions id with
          | none => none
          | some toBox =>
              let d := pathBetween fromBox toBox 70
              let st2 := addWire st1 d
              let mid := bezierMidpoint d
              some (labelAt st2 mid ib.2.1)
  | _ => none

/-- The `"split" in step` arm of `render` (lines 143-174): decision
node at the cursor, branches fanned out at `originX + columnWidth`,
`gapY = 140`, then the cursor advances by
`(branches.length - 1) * gapY + 200`. -/
def renderSplit (measure : MeasureFn) (id label : String)
    (branches : List (String × List Step)) (st : DomState) (cursorY : ℚ) :
    Option (DomState × ℚ) :=
  let st1 := createNode measure st id
    { title := label, subtitle := none, type := NodeType.decision,
      x := originX, y := cursorY }
  let baseX := originX + columnWidth
  match List.foldlM (renderBranch measure id baseX cursorY) st1 (List.enumFrom 0 branches) with
  | none => none
  | some st2 => some (st2, cursorY + ((branches.length : ℚ) - 1) * 140 + 200)

/-- Body of the `step.sequential.forEach((a, idx) => ...)` of lines
178-192.  The accumulator carries the document state and `prevId`
(`none` = JS `null`); a falsy `prevId` draws no wire. -/
def renderSeqEntry (measure : MeasureFn) (cursorY : ℚ)
    (acc : DomState × Option String) (ia : ℕ × SeqEntry) :
    Option (DomState × Option String) :=
  let idx := ia.1
  let a := ia.2
  let id := seqId idx a.tool_name
  let st1 := createNode measure acc.1 id
    { title := jsOrOpt a.label a.tool_name,
      subtitle := some ((jsOrOpt a.call_type "").toUpper),
      type := NodeType.action, x := originX, y := cursorY + (idx : ℚ) * 120 }
  match acc.2 with
  | none => some (st1, some id)
  | some prevId =>
      if prevId = "" then some (st1, some id)
      else
        match mapGet st1.nodePositions prevId with
        | none => none
        | some fromBox =>
            match mapGet st1.nodePositions id with
            | none => none
            | some toBox => some (addWire st1 (pathBetween fromBox toBox 60), some id)

/-- The `"sequential" in step` arm of `render` (lines 176-194): one
node per entry at `originX`, rows 120 apart, a wire from each node to
its predecessor, then the cursor advances by `length * 120 + 40`. -/
def renderSeq (measure : MeasureFn) (entries : List SeqEntry) (st : DomState)
    (cursorY : ℚ) : Option (DomState × ℚ) :=
  match List.foldlM (renderSeqEntry measure cursorY) (st, none) (List.enumFrom 0 entries) with
  | none => none
  | some out => some (out.1, cursorY + (entries.length : ℚ) * 120 + 40)

/-- One iteration of the `for (const step of plan.steps)` loop of lines
142-195.  A top-level bare action step matches neither `"split" in
step` nor `"sequential" in step` and is a no-op. -/
def renderStep (measure : MeasureFn) (acc : DomState × ℚ) (step : Step) :
    Option (DomState × ℚ) :=
  match step with
  | Step.action _ => some acc
  | Step.split id label branches => renderSplit measure id label branches acc.1 acc.2
  | Step.sequential entries => renderSeq measure entries acc.1 acc.2

/-- Lines 132-134 of `render`: remove every node, branch label and SVG
path, and reset `nodePositions` to the empty object. -/
def clearAll (_ : DomState) : DomState :=
  { nodes := [], wires := [], labels := [], nodePositions := [] }

/-- `render` of `src/app.ts` lines 131-200 (the final `viewBox` resize
is pure presentation and carries no layout state). -/
def render (measure : MeasureFn) (plan : Plan) (st : DomState) : Option DomState :=
  match List.foldlM (renderStep measure) (clearAll st, originY) plan.steps with
  | none => none
  | some out => some out.1

/-- The built-in `example` plan of `src/app.ts` lines 20-51
(`example` is a reserved word in Lean, hence the name). -/
def examplePlan : Plan :=
  { steps := [
      Step.split "is_manager" "Is manager?"
        [ ("true",
           [Step.action
             { id := "add_to_channel", provider := some "slack",
               label := "Add to channel",
               tool_name := some "SLACK_INVITE_TO_CHANNEL",
               payload := some (Json.obj [("channel", Json.str "managers")]) }]),
          ("false",
           [Step.action
             { id := "update_profile", provider := some "slack",
               label := "Update profile",
               tool_name := some "SLACK_UPDATE_PROFILE",
               payload := some (Json.obj [("title", Json.str "IC")]) }]) ],
      Step.sequential
        [ { label := some "Create product", call_type := some "Composio",
            tool_name := "SHOPIFY_CREATE_PRODUCT",
            payload := some (Json.obj [("title", Json.str "iPhone")]),
            store_variables := none },
          { label := some "Generate image", call_type := some "SELF_MADE",
            tool_name := "OPENAI_IMAGE_GENERATION",
            payload := some (Json.obj
              [("prompt_text", Json.str "iPhone"),
               ("output_filename", Json.str "iphone.png")]),
            store_variables := none },
          { label := some "Expose file", call_type := some "SELF_MADE",
            tool_name := "EXPOSE_FILE_ON_URL",
            payload := some (Json.obj
              [("file_path", Json.str "\x7bgenerated_image\x7d")]),
            store_variables := none },
          { label := some "Attach image", call_type := some "Composio",
            tool_name := "SHOPIFY_CREATE_PRODUCT_IMAGE",
            payload := some (Json.obj
              [("image", Json.obj [("src", Json.str "\x7bimage_url\x7d")]),
               ("product_id", Json.str "\x7bproduct_id\x7d")]),
            store_variables := none } ] ] }

/-- A concrete measurement: every node 220 wide and 80 tall (used for
concrete evaluations; the engine never inspects these beyond anchor
arithmetic). -/
def measureFix : MeasureFn := fun _ _ => (220, 80)

/-- The empty document. -/
def emptyDom : DomState :=
  { nodes := [], wires := [], labels := [], nodePositions := [] }

/-- The measured box A of the spec's anchor-correctness scenario. -/
def boxA : NodeBBox := { x := 0, y := 0, w := 100, h := 40 }

/-- The measured box B of the spec's anchor-correctness scenario. -/
def boxB : NodeBBox := { x := 300, y := 100, w := 100, h := 40 }

/-- Spec-side definition (from the spec's words, for comparison with
the code): the exact point of a one-dimensional cubic Bézier with
control values `p0 p1 p2 p3` at parameter `t`. -/
def specCubicAt (p0 p1 p2 p3 t : ℚ) : ℚ :=
  (1 - t) ^ 3 * p0 + 3 * (1 - t) ^ 2 * t * p1 + 3 * (1 - t) * t ^ 2 * p2 + t ^ 3 * p3

/-- The eight numbers of a curve in descriptor order. -/
def curveList (c : CurveNums) : List ℚ :=
  [c.x1, c.y1, c.cx1, c.cy1, c.cx2, c.cy2, c.x2, c.y2]

/-! ### Helper lemmas -/

/-- When the descriptor parses back into exactly eight numbers, the
De Casteljau cascade of `bezierMidpoint` collapses to the weighted
average `(p0 + 3 p1 + 3 p2 + p3) / 8` in each coordinate. -/
lemma bezierMidpoint_parsed (d : String) (x1 y1 cx1 cy1 cx2 cy2 x2 y2 : ℚ)
    (h : jsMatchNums d = [x1, y1, cx1, cy1, cx2, cy2, x2, y2]) :
    bezierMidpoint d =
      (some ((x1 + 3 * cx1 + 3 * cx2 + x2) / 8),
       some ((y1 + 3 * cy1 + 3 * cy2 + y2) / 8)) := by
  unfold bezierMidpoint
  rw [h]
  simp only [List.getElem?_cons_zero, List.getElem?_cons_succ, jadd, jhalf,
    Prod.mk.injEq, Option.some.injEq]
  constructor <;> ring

lemma createNode_nodes (measure : MeasureFn) (st : DomState) (id : String) (opts : NodeOpts) :
    (createNode measure st id opts).nodes = st.nodes ++ [{ id := id, opts := opts }] := rfl

lemma createNode_wires (measure : MeasureFn) (st : DomState) (id : String) (opts : NodeOpts) :
    (createNode measure st id opts).wires = st.wires := rfl

lemma addWire_nodes (st : DomState) (d : String) : (addWire st d).nodes = st.nodes := rfl

lemma addWire_wires (st : DomState) (d : String) : (addWire st d).wires = st.wires ++ [d] := rfl

lemma labelAt_nodes (st : DomState) (mid : Option ℚ × Option ℚ) (text : String) :
    (labelAt st mid text).nodes = st.nodes := rfl

lemma labelAt_wires (st : DomState) (mid : Option ℚ × Option ℚ) (text : String) :
    (labelAt st mid text).wires = st.wires := rfl

/-- Invariant of the branch fan-out loop: starting the `forEach` at
index `k`, a successful pass appends one node per branch, every branch
head is an action, and the branch node of index `i` (counted within
`bs`) sits at `(baseX, c + (k+i) * 140)` with the identifier the code
synthesizes. -/
lemma splitFold_spec (measure : MeasureFn) (splitId : String) (baseX c : ℚ) :
    ∀ (bs : List (String × List Step)) (k : ℕ) (st st' : DomState),
      List.foldlM (renderBranch measure splitId baseX c) st (List.enumFrom k bs) = some st' →
      (∃ l, st'.nodes = st.nodes ++ l) ∧
      st'.nodes.length = st.nodes.length + bs.length ∧
      (∀ i br, bs[i]? = some br →
        ∃ a, br.2.head? = some (Step.action a) ∧
          ∃ nd, nd ∈ st'.nodes ∧
            nd.id = jsOrStr a.id ("b" ++ natStr (k + i)) ∧
            nd.opts.x = baseX ∧
            nd.opts.y = c + ((k + i : ℕ) : ℚ) * 140) := by
  intro bs
  induction bs with
  | nil =>
      intro k st st' h
      simp only [List.enumFrom_nil, List.foldlM_nil, pure, Option.some.injEq] at h
      subst h
      refine ⟨⟨[], by simp⟩, by simp, ?_⟩
      intro i br hi
      simp at hi
  | cons b rest ih =>
      intro k st st' h
      rw [List.enumFrom_cons, List.foldlM_cons] at h
      cases hb : renderBranch measure splitId baseX c st (k, b) with
      | none => rw [hb] at h; simp at h
      | some st1 =>
          rw [hb] at h
          obtain ⟨lbl, steps⟩ := b
          cases hh : steps.head? with
          | none => simp only [renderBranch, hh] at hb; exact Option.noConfusion hb
          | some s =>
              cases s with
              | split sid slabel sbranches =>
                  simp only [renderBranch, hh] at hb
                  exact Option.noConfusion hb
              | sequential entries =>
                  simp only [renderBranch, hh] at hb
                  exact Option.noConfusion hb
              | action a =>
                  simp only [renderBranch, hh] at hb
                  cases hg1 : mapGet (createNode measure st
                      (jsOrStr a.id ("b" ++ natStr k))
                      { title := a.label,
                        subtitle := some ((jsOrOpt a.provider "").toUpper),
                        type := NodeType.action, x := baseX + (k : ℚ) * 0,
                        y := c + (k : ℚ) * 140 }).nodePositions splitId with
                  | none => rw [hg1] at hb; exact absurd hb (by simp)
                  | some fromBox =>
                      rw [hg1] at hb
                      cases hg2 : mapGet (createNode measure st
                          (jsOrStr a.id ("b" ++ natStr k))
                          { title := a.label,
                            subtitle := some ((jsOrOpt a.provider "").toUpper),
                            type := NodeType.action, x := baseX + (k : ℚ) * 0,
                            y := c + (k : ℚ) * 140 }).nodePositions
                          (jsOrStr a.id ("b" ++ natStr k)) with
                      | none => rw [hg2] at hb; exact absurd hb (by simp)
                      | some toBox =>
                          rw [hg2] at hb
                          simp only [Option.some.injEq] at hb
                          obtain ⟨⟨l, hl⟩, hlen, hpos⟩ := ih (k + 1) st1 st' (by exact h)
                          have hst1 : st1.nodes = st.nodes ++
                              [{ id := jsOrStr a.id ("b" ++ natStr k),
                                 opts :=
                                   { title := a.label,
                                     subtitle := some ((jsOrOpt a.provider "").toUpper),
                                     type := NodeType.action,
                                     x := baseX + (k : ℚ) * 0,
                                     y := c + (k : ℚ) * 140 } }] := by
                            rw [← hb]
                            simp [labelAt_nodes, addWire_nodes, createNode_nodes]
                          refine ⟨⟨_, by rw [hl, hst1, List.append_assoc]⟩, ?_, ?_⟩
                          · rw [hlen, hst1]
                            simp only [List.length_append, List.length_cons,
                              List.length_nil]
                            omega
                          · intro i br hi
                            match i with
                            | 0 =>
                                simp only [List.getElem?_cons_zero,
                                  Option.some.injEq] at hi
                                subst hi
                                refine ⟨a, hh,
                                  ⟨{ id := jsOrStr a.id ("b" ++ natStr k),
                                     opts :=
                                       { title := a.label,
                                         subtitle := some ((jsOrOpt a.provider "").toUpper),
                                         type := NodeType.action,
                                         x := baseX + (k : ℚ) * 0,
                                         y := c + (k : ℚ) * 140 } }, ?_, by simp, ?_, ?_⟩⟩
                                · rw [hl, hst1]
                                  simp
                                · simp
                                · norm_num
                            | Nat.succ j =>
                                simp only [List.getElem?_cons_succ] at hi
                                obtain ⟨a2, ha2, nd, hmem, hid, hx, hy⟩ := hpos j br hi
                                refine ⟨a2, ha2, nd, hmem, ?_, hx, ?_⟩
                                · have : k + 1 + j = k + (j + 1) := by omega
                                  rw [← this]; exact hid
                                · have : k + 1 + j = k + (j + 1) := by omega
                                  rw [← this]; exact hy

/-- C4: for every split step visited with the cursor at `c`, a
successful pass places the branch node for branch `i` at
`x = originX + columnWidth` and `y = c + i * 140`, and advances the
cursor to `c + (branchCount - 1) * 140 + 200`. -/
theorem split_branch_layout (measure : MeasureFn) (id label : String)
    (branches : List (String × List Step)) (st : DomState) (c : ℚ)
    (st' : DomState) (c' : ℚ)
    (h : renderSplit measure id label branches st c = some (st', c')) :
    c' = c + ((branches.length : ℚ) - 1) * 140 + 200 ∧
    st'.nodes.length = st.nodes.length + 1 + branches.length ∧
    (∀ i br, branches[i]? = some br →
      ∃ a, br.2.head? = some (Step.action a) ∧
        ∃ nd, nd ∈ st'.nodes ∧
          nd.id = jsOrStr a.id ("b" ++ natStr i) ∧
          nd.opts.x = originX + columnWidth ∧
          nd.opts.y = c + (i : ℚ) * 140) := by
  simp only [renderSplit] at h
  cases hf : List.foldlM
      (renderBranch measure id (originX + columnWidth) c)
      (createNode measure st id
        { title := label, subtitle := none, type := NodeType.decision,
          x := originX, y := c })
      (List.enumFrom 0 branches) with
  | none => rw [hf] at h; exact absurd h (by simp)
  | some st2 =>
      rw [hf] at h
      simp only [Option.some.injEq, Prod.mk.injEq] at h
      obtain ⟨hst, hc⟩ := h
      subst hst
      obtain ⟨hext, hlen, hpos⟩ :=
        splitFold_spec measure id (originX + columnWidth) c branches 0 _ _ hf
      refine ⟨hc.symm, ?_, ?_⟩
      · rw [hlen, createNode_nodes]
        simp only [List.length_append, List.length_cons, List.length_nil]
      · intro i br hi
        obtain ⟨a, ha, nd, hmem, hid, hx, hy⟩ := hpos i br hi
        exact ⟨a, ha, nd, hmem, by simpa using hid, hx, by simpa using hy⟩

/-- Witness base data: a leaf action step. -/
def mkAction (id lbl : String) : Step :=
  Step.action { id := id, provider := none, label := lbl, tool_name := none, payload := none }

/-- A split with three single-action branches (spec's fan-out
scenario). -/
def branchesFix : List (String × List Step) :=
  [("x", [mkAction "n1" "A"]), ("y", [mkAction "n2" "B"]), ("z", [mkAction "n3" "C"])]

/-- The result of rendering the three-branch split at cursor 160. -/
def split3Out : DomState × ℚ :=
  (renderSplit measureFix "d0" "D" branchesFix emptyDom 160).getD (emptyDom, 0)

/-- Witness for C4: the three-branch split at cursor 160 advances the
cursor by `(3 - 1) * 140 + 200` (to 640), and the created nodes (the
decision node plus three branch nodes) sit at y = 160, 160, 300, 440. -/
theorem split_branch_layout_witness :
    split3Out.2 = 160 + ((branchesFix.length : ℚ) - 1) * 140 + 200 ∧
    split3Out.1.nodes.map (fun nd => nd.opts.y) = [160, 160, 300, 440] ∧
    split3Out.2 = 640 := by
  have h : renderSplit measureFix "d0" "D" branchesFix emptyDom 160 =
      some (split3Out.1, split3Out.2) := by with_unfolding_all rfl
  refine ⟨(split_branch_layout measureFix "d0" "D" branchesFix emptyDom 160
      split3Out.1 split3Out.2 h).1, ?_, ?_⟩ <;> with_unfolding_all rfl

/-- A synthesized sequential identifier is never the empty string (so
it is never falsy as the next `prevId`). -/
lemma seqId_ne_empty (i : ℕ) (t : String) : seqId i t ≠ "" := by
  intro hempty
  have hlen := congrArg String.length hempty
  simp only [seqId, String.length_append] at hlen
  have h4 : "seq_".length = 4 := rfl
  have h1 : "_".length = 1 := rfl
  have h0 : "".length = 0 := rfl
  rw [h4, h1, h0] at hlen
  omega

/-- Invariant of the sequential loop: starting the `forEach` at index
`k`, a successful pass appends one node per entry at
`(originX, c + (k+i) * 120)`, and appends one wire per entry except
that a falsy incoming `prevId` suppresses the first wire. -/
lemma seqFold_spec (measure : MeasureFn) (c : ℚ) :
    ∀ (entries : List SeqEntry) (k : ℕ) (st : DomState) (prev : Option String)
      (out : DomState × Option String),
      List.foldlM (renderSeqEntry measure c) (st, prev) (List.enumFrom k entries) = some out →
      (∃ l, out.1.nodes = st.nodes ++ l) ∧
      out.1.nodes.length = st.nodes.length + entries.length ∧
      out.1.wires.length = st.wires.length +
        (match prev with
         | none => entries.length - 1
         | some pid => if pid = "" then entries.length - 1 else entries.length) ∧
      (∀ i a, entries[i]? = some a →
        ∃ nd, nd ∈ out.1.nodes ∧ nd.id = seqId (k + i) a.tool_name ∧
          nd.opts.x = originX ∧ nd.opts.y = c + ((k + i : ℕ) : ℚ) * 120) := by
  intro entries
  induction entries with
  | nil =>
      intro k st prev out h
      simp only [List.enumFrom_nil, List.foldlM_nil, pure, Option.some.injEq] at h
      subst h
      refine ⟨⟨[], by simp⟩, by simp, ?_, ?_⟩
      · cases prev with
        | none => simp
        | some pid => by_cases hp : pid = "" <;> simp [hp]
      · intro i a hi; simp at hi
  | cons e rest ih =>
      intro k st prev out h
      rw [List.enumFrom_cons, List.foldlM_cons] at h
      cases hb : renderSeqEntry measure c (st, prev) (k, e) with
      | none => rw [hb] at h; simp at h
      | some acc1 =>
          rw [hb] at h
          have hrest : List.foldlM (renderSeqEntry measure c) acc1
              (List.enumFrom (k + 1) rest) = some out := h
          have hne := seqId_ne_empty k e.tool_name
          have key :
              acc1.2 = some (seqId k e.tool_name) ∧
              acc1.1.nodes = st.nodes ++
                [{ id := seqId k e.tool_name,
                   opts :=
                     { title := jsOrOpt e.label e.tool_name,
                       subtitle := some ((jsOrOpt e.call_type "").toUpper),
                       type := NodeType.action, x := originX,
                       y := c + (k : ℚ) * 120 } }] ∧
              (acc1.1.wires.length = st.wires.length ∨
               acc1.1.wires.length = st.wires.length + 1) ∧
              ((match prev with
                | none => True
                | some pid => pid = "") → acc1.1.wires.length = st.wires.length) ∧
              ((match prev with
                | none => False
                | some pid => ¬ pid = "") → acc1.1.wires.length = st.wires.length + 1) := by
            cases prev with
            | none =>
                simp only [renderSeqEntry] at hb
                obtain rfl : _ = acc1 := Option.some.inj hb
                refine ⟨rfl, by simp [createNode_nodes], Or.inl (by simp [createNode_wires]),
                  fun _ => by simp [createNode_wires], fun hfalse => absurd hfalse not_false⟩
            | some pid =>
                by_cases hp : pid = ""
                · simp only [renderSeqEntry, hp, if_true] at hb
                  obtain rfl : _ = acc1 := Option.some.inj hb
                  refine ⟨rfl, by simp [createNode_nodes], Or.inl (by simp [createNode_wires]),
                    fun _ => by simp [createNode_wires], fun hne2 => absurd hp hne2⟩
                · simp only [renderSeqEntry, hp, if_false] at hb
                  cases hg1 : mapGet (createNode measure st (seqId k e.tool_name)
                      { title := jsOrOpt e.label e.tool_name,
                        subtitle := some ((jsOrOpt e.call_type "").toUpper),
                        type := NodeType.action, x := originX,
                        y := c + (k : ℚ) * 120 }).nodePositions pid with
                  | none => rw [hg1] at hb; exact absurd hb (by simp)
                  | some fromBox =>
                      rw [hg1] at hb
                      cases hg2 : mapGet (createNode measure st (seqId k e.tool_name)
                          { title := jsOrOpt e.label e.tool_name,
                            subtitle := some ((jsOrOpt e.call_type "").toUpper),
                            type := NodeType.action, x := originX,
                            y := c + (k : ℚ) * 120 }).nodePositions
                          (seqId k e.tool_name) with
                      | none => rw [hg2] at hb; exact absurd hb (by simp)
                      | some toBox =>
                          rw [hg2] at hb
                          obtain rfl : _ = acc1 := Option.some.inj hb
                          refine ⟨rfl, by simp [addWire_nodes, createNode_nodes], ?_, ?_, ?_⟩
                          · exact Or.inr (by simp [addWire_wires, createNode_wires])
                          · intro hfalse; exact absurd hfalse hp
                          · intro _; simp [addWire_wires, createNode_wires]
          obtain ⟨hprev, hnodes1, _, hwK, hwS⟩ := key
          obtain ⟨⟨l, hl⟩, hlen, hw, hpos⟩ :=
            ih (k + 1) acc1.1 acc1.2 out (by exact hrest)
          rw [hprev] at hw
          simp only [hne, if_false] at hw
          constructor
          · exact ⟨_, by rw [hl, hnodes1, List.append_assoc]⟩
          constructor
          · rw [hlen, hnodes1]
            simp only [List.length_append, List.length_cons, List.length_nil]
            omega
          constructor
          · cases prev with
            | none =>
                rw [hw, hwK (by trivial)]
                simp only [List.length_cons]
                omega
            | some pid =>
                by_cases hp : pid = ""
                · rw [hw, hwK (by simpa using hp)]
                  simp only [hp, if_true, List.length_cons]
                  omega
                · rw [hw, hwS (by simpa using hp)]
                  simp only [hp, if_false, List.length_cons]
                  omega
          · intro i a hi
            match i with
            | 0 =>
                simp only [List.getElem?_cons_zero, Option.some.injEq] at hi
                subst hi
                refine ⟨{ id := seqId k e.tool_name,
                          opts :=
                            { title := jsOrOpt e.label e.tool_name,
                              subtitle := some ((jsOrOpt e.call_type "").toUpper),
                              type := NodeType.action, x := originX,
                              y := c + (k : ℚ) * 120 } }, ?_, by simp, rfl, by norm_num⟩
                rw [hl, hnodes1]
                simp
            | Nat.succ j =>
                simp only [List.getElem?_cons_succ] at hi
                obtain ⟨nd, hmem, hid, hx, hy⟩ := hpos j a hi
                have heq : k + 1 + j = k + (j + 1) := by omega
                refine ⟨nd, hmem, ?_, hx, ?_⟩
                · rw [← heq]; exact hid
                · rw [← heq]; exact hy

/-- C5: for every sequential step visited with the cursor at `c`, a
successful pass places the node for entry `idx` at
`(originX, c + idx * 120)`, draws one connecting curve per node except
the first (`n - 1` wires for `n` entries), and advances the cursor to
`c + n * 120 + 40`. -/
theorem seq_chain_layout (measure : MeasureFn) (entries : List SeqEntry)
    (st : DomState) (c : ℚ) (st' : DomState) (c' : ℚ)
    (h : renderSeq measure entries st c = some (st', c')) :
    c' = c + (entries.length : ℚ) * 120 + 40 ∧
    st'.nodes.length = st.nodes.length + entries.length ∧
    st'.wires.length = st.wires.length + (entries.length - 1) ∧
    (∀ i a, entries[i]? = some a →
      ∃ nd, nd ∈ st'.nodes ∧ nd.id = seqId i a.tool_name ∧
        nd.opts.x = originX ∧ nd.opts.y = c + (i : ℚ) * 120) := by
  simp only [renderSeq] at h
  cases hf : List.foldlM (renderSeqEntry measure c) (st, none)
      (List.enumFrom 0 entries) with
  | none => rw [hf] at h; exact absurd h (by simp)
  | some out =>
      rw [hf] at h
      simp only [Option.some.injEq, Prod.mk.injEq] at h
      obtain ⟨hst, hc⟩ := h
      obtain ⟨hext, hlen, hw, hpos⟩ := seqFold_spec measure c entries 0 st none out hf
      refine ⟨hc.symm, ?_, ?_, ?_⟩
      · rw [← hst]; exact hlen
      · rw [← hst]; exact hw
      · intro i a hi
        obtain ⟨nd, hmem, hid, hx, hy⟩ := hpos i a hi
        refine ⟨nd, ?_, by simpa using hid, hx, by simpa using hy⟩
        rw [← hst]; exact hmem

/-- Four sequential entries with distinct tools (spec's chaining
scenario). -/
def seq4 : List SeqEntry :=
  [ { label := none, call_type := none, tool_name := "T1", payload := none,
      store_variables := none },
    { label := none, call_type := none, tool_name := "T2", payload := none,
      store_variables := none },
    { label := none, call_type := none, tool_name := "T3", payload := none,
      store_variables := none },
    { label := none, call_type := none, tool_name := "T4", payload := none,
      store_variables := none } ]

/-- The result of rendering the four-entry block at cursor 160. -/
def seq4Out : DomState × ℚ :=
  (renderSeq measureFix seq4 emptyDom 160).getD (emptyDom, 0)

/-- Witness for C5: the four-entry block at cursor 160 places its
nodes at y = 160, 280, 400, 520, draws exactly 3 wires, and advances
the cursor by `4 * 120 + 40`. -/
theorem seq_chain_layout_witness :
    seq4Out.2 = 160 + (seq4.length : ℚ) * 120 + 40 ∧
    seq4Out.1.wires.length = emptyDom.wires.length + (seq4.length - 1) ∧
    seq4Out.1.nodes.map (fun nd => nd.opts.y) = [160, 280, 400, 520] ∧
    seq4Out.1.wires.length = 3 := by
  have h : renderSeq measureFix seq4 emptyDom 160 = some (seq4Out.1, seq4Out.2) := by
    with_unfolding_all rfl
  have main := seq_chain_layout measureFix seq4 emptyDom 160 seq4Out.1 seq4Out.2 h
  exact ⟨main.1, main.2.2.1, by with_unfolding_all rfl, by with_unfolding_all rfl⟩

/-- C6: `render` first clears all previously created nodes, wires and
labels and resets the node-box mapping, so its result is independent
of the prior document state, and re-rendering its own output
reproduces it exactly. -/
theorem render_idempotent (measure : MeasureFn) (plan : Plan) (s1 s2 : DomState)
    (st' : DomState) :
    render measure plan s1 = render measure plan s2 ∧
    (render measure plan s1 = some st' → render measure plan st' = some st') := by
  have hclr : ∀ sa sb : DomState, render measure plan sa = render measure plan sb := by
    intro sa sb
    unfold render clearAll
    rfl
  exact ⟨hclr s1 s2, fun h => by rw [hclr st' s1]; exact h⟩

/-- The document produced by rendering the example plan once. -/
def renderOnceOut : DomState := (render measureFix examplePlan emptyDom).getD emptyDom

/-- Witness for C6: rendering the example plan on top of its own
output reproduces that output exactly. -/
theorem render_idempotent_witness :
    render measureFix examplePlan renderOnceOut = some renderOnceOut :=
  (render_idempotent measureFix examplePlan emptyDom emptyDom renderOnceOut).2
    (by with_unfolding_all rfl)

/-- A plan in which two distinct visited steps synthesize the same
node identifier `seq_0_dup` (two one-entry sequential blocks with the
same tool name). -/
def collidePlan : Plan :=
  { steps := [
      Step.sequential
        [ { label := none, call_type := none, tool_name := "dup",
            payload := none, store_variables := none } ],
      Step.sequential
        [ { label := none, call_type := none, tool_name := "dup",
            payload := none, store_variables := none } ] ] }

/-- The document produced by rendering the colliding plan. -/
def collideOut : DomState := (render measureFix collidePlan emptyDom).getD emptyDom

/-- C8: the engine does not enforce key uniqueness: object-key
assignment makes the later box win (first conjunct, for every mapping),
and on the colliding plan `render` completes without error, creates
both visual nodes, yet the mapping retains only the later node's box
(`y = 320`, the second block's row, not `y = 160`). -/
theorem duplicate_node_id_silent_overwrite :
    (∀ (m : List (String × NodeBBox)) (k : String) (v : NodeBBox),
        mapGet (mapSet m k v) k = some v) ∧
    render measureFix collidePlan emptyDom = some collideOut ∧
    collideOut.nodes.length = 2 ∧
    collideOut.nodePositions =
      [("seq_0_dup", { x := 140, y := 320, w := 220, h := 80 })] := by
  refine ⟨?_, by with_unfolding_all rfl, by with_unfolding_all rfl,
    by with_unfolding_all rfl⟩
  intro m k v
  induction m with
  | nil => simp [mapSet, mapGet]
  | cons hd tl ihm =>
      obtain ⟨k1, v1⟩ := hd
      by_cases hk : k1 = k
      · subst hk; simp [mapSet, mapGet]
      · simp [mapSet, mapGet, hk, ihm]

/-- Digit characters are digits. -/
lemma digitChar_isDigit (d : ℕ) (hd : d < 10) : (Nat.digitChar d).isDigit = true := by
  interval_cases d <;> decide

/-- Numeric value of a digit character. -/
lemma digitChar_toNat (d : ℕ) (hd : d < 10) : (Nat.digitChar d).toNat = 48 + d := by
  interval_cases d <;> decide

/-- The decimal rendering produces only digit characters, evaluates
back to the rendered number, and is never empty. -/
lemma natStrAux_spec : ∀ (fuel n : ℕ), n < fuel →
    (∀ ch ∈ natStrAux fuel n, ch.isDigit = true) ∧
    digitsVal (natStrAux fuel n) = n ∧
    natStrAux fuel n ≠ [] := by
  intro fuel
  induction fuel with
  | zero => intro n h; omega
  | succ fuel ihf =>
      intro n hn
      by_cases h10 : n < 10
      · simp only [natStrAux, if_pos h10]
        refine ⟨?_, ?_, by simp⟩
        · intro ch hch
          simp only [List.mem_singleton] at hch
          subst hch
          exact digitChar_isDigit n h10
        · simp only [digitsVal, List.foldl_cons, List.foldl_nil,
            digitChar_toNat n h10]
          omega
      · have hdiv : n / 10 < fuel := by
          have h1 : n / 10 < n := Nat.div_lt_self (by omega) (by omega)
          omega
        obtain ⟨ihd, ihv, ihne⟩ := ihf (n / 10) hdiv
        simp only [natStrAux, if_neg h10]
        have hmod : n % 10 < 10 := Nat.mod_lt _ (by omega)
        refine ⟨?_, ?_, by simp⟩
        · intro ch hch
          rcases List.mem_append.mp hch with hmem | hmem
          · exact ihd ch hmem
          · simp only [List.mem_singleton] at hmem
            subst hmem
            exact digitChar_isDigit _ hmod
        · have hfold : digitsVal (natStrAux fuel (n / 10) ++ [Nat.digitChar (n % 10)]) =
              10 * digitsVal (natStrAux fuel (n / 10)) +
                ((Nat.digitChar (n % 10)).toNat - 48) := by
            simp [digitsVal, List.foldl_append]
          rw [hfold, ihv, digitChar_toNat _ hmod]
          omega

/-- The decimal rendering of `n` consists of digit characters only. -/
lemma natStr_digits (n : ℕ) : ∀ ch ∈ (natStr n).data, ch.isDigit = true :=
  (natStrAux_spec (n + 1) n (by omega)).1

/-- The decimal rendering of `n` evaluates back to `n`. -/
lemma natStr_val (n : ℕ) : digitsVal (natStr n).data = n :=
  (natStrAux_spec (n + 1) n (by omega)).2.1

/-- The decimal rendering of `n` is nonempty. -/
lemma natStr_ne_nil (n : ℕ) : (natStr n).data ≠ [] :=
  (natStrAux_spec (n + 1) n (by omega)).2.2

/-- Analysis helper: recover the decimal index encoded between the
`seq_` prefix and the next underscore of a synthesized sequential
identifier. -/
def decodeSeqIdx (id : String) : Option ℕ :=
  match id.data with
  | 's' :: 'e' :: 'q' :: '_' :: rest =>
      let ds := rest.takeWhile Char.isDigit
      if ds.isEmpty then none else some (digitsVal ds)
  | _ => none

/-- `takeWhile isDigit` over digits followed by an underscore yields
exactly the digits. -/
lemma takeWhile_digits_before_underscore (l r : List Char)
    (hl : ∀ ch ∈ l, Char.isDigit ch = true) :
    (l ++ '_' :: r).takeWhile Char.isDigit = l := by
  induction l with
  | nil =>
      have hu : Char.isDigit '_' = false := rfl
      simp [List.takeWhile_cons, hu]
  | cons a l2 ihl =>
      have ha := hl a (by simp)
      simp [List.takeWhile_cons, ha, ihl (fun ch hch => hl ch (by simp [hch]))]

/-- The character data of a synthesized sequential identifier. -/
lemma data_seqId (i : ℕ) (t : String) :
    (seqId i t).data = 's' :: 'e' :: 'q' :: '_' :: ((natStr i).data ++ '_' :: t.data) := by
  show ("seq_" ++ natStr i ++ "_" ++ t).data = _
  rw [String.data_append, String.data_append, String.data_append]
  show ((['s', 'e', 'q', '_'] ++ (natStr i).data) ++ ['_']) ++ t.data = _
  simp [List.append_assoc]

/-- Decoding round-trip: the index is recoverable from the identifier,
whatever the tool name. -/
lemma decode_seqId (i : ℕ) (t : String) : decodeSeqIdx (seqId i t) = some i := by
  unfold decodeSeqIdx
  rw [data_seqId]
  show (let ds := ((natStr i).data ++ '_' :: t.data).takeWhile Char.isDigit
        if ds.isEmpty then none else some (digitsVal ds)) = some i
  rw [takeWhile_digits_before_underscore _ _ (natStr_digits i)]
  rw [if_neg (by simpa using natStr_ne_nil i)]
  rw [natStr_val i]

/-- C9: within a sequential block the synthesized node identifier is
injective in the position index: distinct indices give distinct
identifier strings, whatever the tool names. -/
theorem seqId_injective_in_index (i j : ℕ) (s t : String) (hij : i ≠ j) :
    seqId i s ≠ seqId j t := by
  intro he
  have hd := congrArg decodeSeqIdx he
  rw [decode_seqId, decode_seqId] at hd
  exact hij (Option.some.inj hd)

/-- Witness for C9: indices 0 and 1 with the same tool name give
distinct identifiers. -/
theorem seqId_injective_in_index_witness :
    (0 : ℕ) ≠ 1 ∧
    seqId 0 "SHOPIFY_CREATE_PRODUCT" ≠ seqId 1 "SHOPIFY_CREATE_PRODUCT" :=
  ⟨by decide,
   seqId_injective_in_index 0 1 "SHOPIFY_CREATE_PRODUCT" "SHOPIFY_CREATE_PRODUCT"
     (by decide)⟩

/-- C2: for every pair of boxes and every horizontal offset, the routed
cubic starts at the right-middle anchor of the source box, ends at the
left-middle anchor of the target box, with control point 1 at
`(start.x + offset, start.y)` and control point 2 at
`(end.x - offset, end.y)`; in particular, for A at `x=0,y=0,w=100,h=40`
and B at `x=300,y=100,w=100,h=40` with offset 60, the emitted
descriptor carries start `(100,20)`, controls `(160,20)` and
`(240,120)`, and end `(300,120)`. -/
theorem pathBetween_anchor_correct :
    (∀ (f t : NodeBBox) (dx : ℚ),
      pathBetweenNums f t dx =
        { x1 := f.x + f.w, y1 := f.y + f.h / 2,
          cx1 := f.x + f.w + dx, cy1 := f.y + f.h / 2,
          cx2 := t.x - dx, cy2 := t.y + t.h / 2,
          x2 := t.x, y2 := t.y + t.h / 2 }) ∧
    jsMatchNums (pathBetween boxA boxB 60) =
      [100, 20, 160, 20, 240, 120, 300, 120] := by
  constructor
  · intro f t dx; rfl
  · with_unfolding_all rfl

/-- C3: whenever the descriptor's eight control-point numbers are
recovered by the parser, `bezierMidpoint` returns the exact point of
the cubic at `t = 1/2` in both coordinates. -/
theorem bezierMidpoint_exact (d : String) (x1 y1 cx1 cy1 cx2 cy2 x2 y2 : ℚ)
    (h : jsMatchNums d = [x1, y1, cx1, cy1, cx2, cy2, x2, y2]) :
    bezierMidpoint d =
      (some (specCubicAt x1 cx1 cx2 x2 (1 / 2)),
       some (specCubicAt y1 cy1 cy2 y2 (1 / 2))) := by
  rw [bezierMidpoint_parsed d x1 y1 cx1 cy1 cx2 cy2 x2 y2 h]
  unfold specCubicAt
  simp only [Prod.mk.injEq, Option.some.injEq]
  constructor <;> ring

/-- Witness for C3: the spec's concrete curve `(0,0) (60,0) (240,120)
(300,120)` parses back and its midpoint is exactly `(150, 60)`. -/
theorem bezierMidpoint_exact_witness :
    jsMatchNums "M 0 0 C 60 0, 240 120, 300 120" =
      [0, 0, 60, 0, 240, 120, 300, 120] ∧
    bezierMidpoint "M 0 0 C 60 0, 240 120, 300 120" = (some 150, some 60) := by
  have h : jsMatchNums "M 0 0 C 60 0, 240 120, 300 120" =
      [0, 0, 60, 0, 240, 120, 300, 120] := by with_unfolding_all rfl
  refine ⟨h, ?_⟩
  rw [bezierMidpoint_exact _ 0 0 60 0 240 120 300 120 h]
  with_unfolding_all rfl

/-- C7 (failing input): on a descriptor with no parseable numbers the
code does not raise any error; the parse yields `[]`, all eight
destructured values are `undefined`, and the midpoint silently comes
out as `(NaN, NaN)` (modelled `(none, none)`), contrary to the spec's
required explicit failure. -/
theorem bezierMidpoint_malformed_silent_nan :
    jsMatchNums "not a curve" = [] ∧
    bezierMidpoint "not a curve" = (none, none) := by
  constructor <;> with_unfolding_all rfl

/-- C10: for every curve the router itself produces, provided its
numbers round-trip through the descriptor parser, the computed curve
midpoint is the plain arithmetic mean of the two anchor points: the
symmetric horizontal control offsets cancel. -/
theorem routed_midpoint_is_chord_midpoint (f t : NodeBBox) (dx : ℚ)
    (h : jsMatchNums (pathBetween f t dx) = curveList (pathBetweenNums f t dx)) :
    bezierMidpoint (pathBetween f t dx) =
      (some ((f.x + f.w + t.x) / 2),
       some ((f.y + f.h / 2 + (t.y + t.h / 2)) / 2)) := by
  have h8 : jsMatchNums (pathBetween f t dx) =
      [f.x + f.w, f.y + f.h / 2, f.x + f.w + dx, f.y + f.h / 2,
       t.x - dx, t.y + t.h / 2, t.x, t.y + t.h / 2] := by
    rw [h]; rfl
  rw [bezierMidpoint_parsed _ _ _ _ _ _ _ _ _ h8]
  simp only [Prod.mk.injEq, Option.some.injEq]
  constructor <;> ring

/-- Witness for C10: the boxes of the anchor scenario round-trip and
their wire's midpoint is the chord midpoint `(200, 70)`. -/
theorem routed_midpoint_is_chord_midpoint_witness :
    jsMatchNums (pathBetween boxA boxB 60) = curveList (pathBetweenNums boxA boxB 60) ∧
    bezierMidpoint (pathBetween boxA boxB 60) = (some 200, some 70) := by
  have h : jsMatchNums (pathBetween boxA boxB 60) =
      curveList (pathBetweenNums boxA boxB 60) := by with_unfolding_all rfl
  refine ⟨h, ?_⟩
  rw [routed_midpoint_is_chord_midpoint boxA boxB 60 h]
  with_unfolding_all rfl

/-- C1 counterexample: one call to `render` on the built-in example
plan creates 7 visual nodes (1 decision + 2 branch + 4 sequential),
not 6 as claimed. -/
theorem example_plan_node_count_counterexample :
    (render measureFix examplePlan emptyDom).map (fun s => s.nodes.length) = some 7 ∧
    (render measureFix examplePlan emptyDom).map (fun s => s.nodes.length) ≠ some 6 := by
  have h7 : (render measureFix examplePlan emptyDom).map (fun s => s.nodes.length) =
      some 7 := by with_unfolding_all rfl
  exact ⟨h7, by rw [h7]; simp⟩

/-- C1 (amended): for every reported node measurement and every prior
document state, one call to `render` on the built-in example plan
produces exactly 7 visual nodes, exactly 5 connector curves, and
exactly 2 branch labels with texts `true` and `false`. -/
theorem example_plan_render_counts (measure : MeasureFn) (st : DomState) :
    (render measure examplePlan st).map
      (fun s => (s.nodes.length, s.wires.length, s.labels.map (fun l => l.text))) =
    some (7, 5, ["true", "false"]) := by
  with_unfolding_all rfl

end IsoFlow
